import Mathlib

/-!
Verification of the `blade` Android build orchestrator (`build.go`).

The development shallowly embeds the functions of `build.go` that the
specification talks about:

* `findJavaSourceFiles` (build.go:165-182) and the `filepath.Walk`
  traversal it relies on, over an explicit directory-tree datatype;
* `newToolchain` / `initBuildTools` / `initPlatforms` (build.go:257-363)
  over an explicit model of the SDK directory layout;
* the step sequencing of `main` (build.go:80-127) over an environment
  recording which external step succeeds;
* `remove` (build.go:222-237) over an explicit file-system state;
* the command tokenization of `run` (build.go:208-220) together with the
  `spaces` regexp (`\s+` replaced by a single space, then split on spaces);
* the file-system locations of the artifacts produced by a fully
  successful run of `main`.

Strings are compared the way Go compares them: byte-wise lexicographic
order of the UTF-8 encoding, which coincides with codepoint-lexicographic
order, modelled here as `≤` on `String.data` (the codepoint list).
-/

namespace Blade

/-! ## Directory trees and `filepath.Walk` (build.go:165-182)

A directory entry is a `file`, a directory `dir` with a list of named
children given in the raw order the operating system reports them
(`Readdir` order), or `errEnt`, an entry on which `lstat` (or, for the
walk root, the initial stat) fails, producing a traversal error.
Go's `filepath.Walk` reads each directory, sorts the child names
(`readDirNames` calls `sort.Strings`), and visits the children in that
sorted order. -/

inductive FSTree where
  | file : FSTree
  | errEnt : FSTree
  | dir : List (String × FSTree) → FSTree

/-- The path join performed by `filepath.Join(path, name)` for a non-empty
`path` with no trailing slash, as it occurs inside `filepath.Walk`. -/
def pathJoin (dir name : String) : String := dir ++ "/" ++ name

/-- The test `javaFilename.MatchString(info.Name())` of build.go:163/173.
The pattern is dot-star, backslash-dot, `java`, dollar; an unanchored
match of it against `name` exists exactly when `name` ends in `.java`. -/
def javaFilenameMatches (name : String) : Bool :=
  ".java".data.isSuffixOf name.data

/-- Go string `≤` (byte-wise) on the names of two directory entries; the
comparison used by `sort.Strings` inside `filepath.Walk`. -/
def entryLE (a b : String × FSTree) : Prop := a.1.data ≤ b.1.data

instance : DecidableRel entryLE := fun a b =>
  inferInstanceAs (Decidable (a.1.data ≤ b.1.data))

instance : IsTotal (String × FSTree) entryLE :=
  ⟨fun a b => le_total a.1.data b.1.data⟩

instance : IsTrans (String × FSTree) entryLE :=
  ⟨fun _ _ _ => le_trans⟩

/-- The sorted order in which `filepath.Walk` visits the children of a
directory: the raw `Readdir` listing sorted by name (Go sorts the name
list and then stats each name; with the distinct names of a real
directory this is the same as sorting the entries by name). -/
def sortEntries (l : List (String × FSTree)) : List (String × FSTree) :=
  l.insertionSort entryLE

theorem sortEntries_perm (l : List (String × FSTree)) : (sortEntries l).Perm l :=
  List.perm_insertionSort _ l

theorem sizeOf_perm_entries {l₁ l₂ : List (String × FSTree)} (h : l₁.Perm l₂) :
    sizeOf l₁ = sizeOf l₂ := by
  induction h with
  | nil => rfl
  | cons x _ ih => simp [ih]
  | swap x y l => simp; omega
  | trans _ _ ih₁ ih₂ => omega

mutual
/-- One entry of the walk of build.go:168-177, carrying the full `path`
and the base `name` of the entry.  On an `lstat` error the callback
receives the error and returns it, aborting the walk (`case err != nil`);
a directory is only traversed (`case info.IsDir()` collects nothing); a
file whose name matches the pattern is appended to `paths`.  The returned
flag records whether the walk ended in an error. -/
def walkTree (path name : String) (t : FSTree) : List String × Bool :=
  match t with
  | .errEnt => ([], true)
  | .file => (if javaFilenameMatches name then [path] else [], false)
  | .dir entries => walkEntries path (sortEntries entries)
termination_by sizeOf t
decreasing_by
  have h := sizeOf_perm_entries (sortEntries_perm entries)
  simp only [FSTree.dir.sizeOf_spec]
  omega

/-- The loop of Go `filepath.walk` over the sorted child names of one
directory: visit each child in order, stopping at the first error. -/
def walkEntries (path : String) (l : List (String × FSTree)) : List String × Bool :=
  match l with
  | [] => ([], false)
  | (n, t) :: rest =>
    match walkTree (pathJoin path n) n t with
    | (ps, true) => (ps, true)
    | (ps, false) =>
      match walkEntries path rest with
      | (ps', e') => (ps ++ ps', e')
termination_by sizeOf l
decreasing_by
  all_goals (simp; try omega)
end

/-- The base name of a path: the suffix after the last slash, as
`info.Name()` reports it for the walk root (the general `filepath.Base`
also strips trailing slashes, which the roots used here do not have). -/
def baseName (p : String) : String :=
  String.mk (p.data.foldl (fun acc c => if c = '/' then [] else acc ++ [c]) [])

/-- `findJavaSourceFiles` of build.go:165-182 (the `fmt.Println` of the
root and the error-message wrapping are side effects on streams, not
modelled): walk the tree rooted at `rootDir`, collecting matching file
paths; the Boolean records whether a traversal error was propagated. -/
def findJavaSourceFiles (rootDir : String) (t : FSTree) : List String × Bool :=
  walkTree rootDir (baseName rootDir) t

mutual
/-- Reference enumeration, in raw listing order, of the paths of the
non-directory entries of the tree whose name ends in `.java`. -/
def javaPathsOf (path name : String) (t : FSTree) : List String :=
  match t with
  | .errEnt => []
  | .file => if javaFilenameMatches name then [path] else []
  | .dir entries => javaPathsOfList path entries
termination_by sizeOf t
decreasing_by
  simp only [FSTree.dir.sizeOf_spec]
  omega

/-- List part of `javaPathsOf`. -/
def javaPathsOfList (path : String) (l : List (String × FSTree)) : List String :=
  match l with
  | [] => []
  | (n, t) :: rest => javaPathsOf (pathJoin path n) n t ++ javaPathsOfList path rest
termination_by sizeOf l
decreasing_by
  all_goals (simp; try omega)
end

mutual
/-- True when no entry of the tree produces a traversal error. -/
def errorFreeT (t : FSTree) : Bool :=
  match t with
  | .errEnt => false
  | .file => true
  | .dir entries => errorFreeL entries
termination_by sizeOf t
decreasing_by
  simp only [FSTree.dir.sizeOf_spec]
  omega

/-- List part of `errorFreeT`. -/
def errorFreeL (l : List (String × FSTree)) : Bool :=
  match l with
  | [] => true
  | (_, t) :: rest => errorFreeT t && errorFreeL rest
termination_by sizeOf l
decreasing_by
  all_goals (simp; try omega)
end

/-! ## Toolchain resolution (build.go:248-363)

`filepath.Abs` is pure path arithmetic (it can only fail when the working
directory cannot be determined) and is modelled as the identity on the
already-absolute paths used here; it never consults the file system.  The
file system visible to resolution is modelled by the directories that can
be opened and listed (`dirs`, mapping a directory path to its `Readdir`
listing in raw order) and by which paths exist (`existsAt`). -/

structure SdkFs where
  dirs : List (String × List String)
  existsAt : String → Bool

/-- A model file system is coherent when every listed directory and every
entry of its listing exists. -/
def SdkFs.coherent (fs : SdkFs) : Bool :=
  fs.dirs.all fun dn =>
    fs.existsAt dn.1 && dn.2.all fun n => fs.existsAt (dn.1 ++ "/" ++ n)

structure toolchain where
  sdk : String
  buildTools : String
  platform : String
  androidLib : String
  aaptBin : String
  dxBin : String
deriving DecidableEq

/-- Structured counterparts of the errors of build.go:294-363.  The
`emptyBuildTools` payload is the length of the listing because the source
interpolates `len(ff)` (not the path) into that message (build.go:309). -/
inductive ResolutionError where
  | openBuildTools (p : String)
  | emptyBuildTools (n : Nat)
  | openPlatforms (p : String)
  | emptyPlatforms (p : String)
deriving DecidableEq

/-- `initBuildTools` of build.go:294-329: open `sdk/build-tools`, read its
listing, fail if it cannot be opened (the `Readdir` error case is folded
into the open failure) or is empty, select the element at index
`len(ff)-1` — the literal last element of the raw listing — and derive
the `aapt` and `dx` paths inside it without checking that they exist. -/
def initBuildTools (fs : SdkFs) (sdk : String) :
    Except ResolutionError (String × String × String) :=
  let p := sdk ++ "/build-tools"
  match fs.dirs.lookup p with
  | none => .error (.openBuildTools p)
  | some ff =>
    if h : ff.length < 1 then .error (.emptyBuildTools ff.length)
    else
      let buildTools := p ++ "/" ++ ff.getLast (fun he => h (by simp [he]))
      .ok (buildTools, buildTools ++ "/aapt", buildTools ++ "/dx")

/-- `initPlatforms` of build.go:331-363: same shape over `sdk/platforms`,
deriving the `android.jar` path, again without an existence check. -/
def initPlatforms (fs : SdkFs) (sdk : String) :
    Except ResolutionError (String × String) :=
  let p := sdk ++ "/platforms"
  match fs.dirs.lookup p with
  | none => .error (.openPlatforms p)
  | some ff =>
    if h : ff.length < 1 then .error (.emptyPlatforms p)
    else
      let platform := p ++ "/" ++ ff.getLast (fun he => h (by simp [he]))
      .ok (platform, platform ++ "/android.jar")

/-- `newToolchain` of build.go:257-292: absolutize the SDK path (pure),
run `initBuildTools`, then — only if it succeeded — `initPlatforms`
(the source wraps either error with an installation hint before
returning; the structured error is passed through unchanged). -/
def newToolchain (fs : SdkFs) (SDKPath : String) : Except ResolutionError toolchain :=
  let sdk := SDKPath
  match initBuildTools fs sdk with
  | .error e => .error e
  | .ok (bt, aapt, dx) =>
    match initPlatforms fs sdk with
    | .error e => .error e
    | .ok (pl, lib) => .ok ⟨sdk, bt, pl, lib, aapt, dx⟩

/-- A name is the byte-wise lexicographically greatest element of a
listing when it occurs in it and dominates every element. -/
def IsLexGreatest (s : String) (ff : List String) : Prop :=
  s ∈ ff ∧ ∀ x ∈ ff, x.data ≤ s.data

instance (s : String) (ff : List String) : Decidable (IsLexGreatest s ff) :=
  inferInstanceAs (Decidable (_ ∧ _))

/-! ## The step sequence of `main` (build.go:80-127)

After toolchain resolution, `main` runs the steps strictly in sequence;
on the first failing step it prints the step's message to stderr and
calls `os.Exit(1)`.  The success of each external action is an input
(`RunEnv`).  The final `remove` call on build.go:126 discards the
returned error, so `cleanupOk` cannot influence the result. -/

inductive Step where
  | makeDirs
  | generateResources
  | compileJava
  | translateBytecode
  | packageApk
  | injectBytecode
  | signApk
  | alignApk
  | cleanup
deriving DecidableEq

structure RunEnv where
  makeDirsOk : Bool
  generateOk : Bool
  compileOk : Bool
  translateOk : Bool
  packageOk : Bool
  injectOk : Bool
  signOk : Bool
  alignOk : Bool
  cleanupOk : Bool

structure MainResult where
  executed : List Step
  exitCode : Nat
  stderr : List String
deriving DecidableEq

def msgMakeDirs : String := "could not create output directories due to error"
def msgGenerate : String := "could not create Java file from Android XML resources files due to error"
def msgCompile : String := "could not compile java source files to bytecode due to error"
def msgTranslate : String := "could not translate bytecode with dexer due to error"
def msgPackage : String := "could not create unaligned APK file due to error"
def msgInject : String := "could not add android runtime bytecode to APK due to error"
def msgSign : String := "could not sign APK due to error"
def msgAlign : String := "Could align bytes of APK file due to error"

/-- The straight-line step sequence of `main` (build.go:81-127): each step
runs only if all previous ones succeeded; a failure prints that step's
message and exits with status 1; after a successful `zipalign` the
`remove` call runs and its error is ignored, so `main` returns normally
(process exit status 0) whatever cleanup did. -/
def mainRun (env : RunEnv) : MainResult :=
  if env.makeDirsOk = false then
    ⟨[.makeDirs], 1, [msgMakeDirs]⟩
  else if env.generateOk = false then
    ⟨[.makeDirs, .generateResources], 1, [msgGenerate]⟩
  else if env.compileOk = false then
    ⟨[.makeDirs, .generateResources, .compileJava], 1, [msgCompile]⟩
  else if env.translateOk = false then
    ⟨[.makeDirs, .generateResources, .compileJava, .translateBytecode], 1, [msgTranslate]⟩
  else if env.packageOk = false then
    ⟨[.makeDirs, .generateResources, .compileJava, .translateBytecode, .packageApk], 1,
      [msgPackage]⟩
  else if env.injectOk = false then
    ⟨[.makeDirs, .generateResources, .compileJava, .translateBytecode, .packageApk,
      .injectBytecode], 1, [msgInject]⟩
  else if env.signOk = false then
    ⟨[.makeDirs, .generateResources, .compileJava, .translateBytecode, .packageApk,
      .injectBytecode, .signApk], 1, [msgSign]⟩
  else if env.alignOk = false then
    ⟨[.makeDirs, .generateResources, .compileJava, .translateBytecode, .packageApk,
      .injectBytecode, .signApk, .alignApk], 1, [msgAlign]⟩
  else
    ⟨[.makeDirs, .generateResources, .compileJava, .translateBytecode, .packageApk,
      .injectBytecode, .signApk, .alignApk, .cleanup], 0, []⟩

/-! ## `remove` (build.go:222-237)

The file-system state is a list of existing paths, each tagged with
whether it is a directory.  `os.Stat` is the lookup; a missing path makes
the stat fail.  `os.RemoveAll` on a directory removes the path and
everything strictly below it; `os.Remove` on a file removes the single
path (their own error paths are not modelled; the stat error is the one
the claims are about). -/

def removeDirAll (fsPaths : List (String × Bool)) (p : String) : List (String × Bool) :=
  fsPaths.filter fun q => !(q.1 == p || (p ++ "/").data.isPrefixOf q.1.data)

def removeFile (fsPaths : List (String × Bool)) (p : String) : List (String × Bool) :=
  fsPaths.filter fun q => !(q.1 == p)

/-- `remove` of build.go:222-237: stat each path in order; on a stat
failure return immediately with the error flag set (the remaining paths
are not attempted and the state is unchanged from that point); remove a
directory with its contents, a file on its own. -/
def remove (fsPaths : List (String × Bool)) : List String → List (String × Bool) × Bool
  | [] => (fsPaths, false)
  | s :: rest =>
    match fsPaths.lookup s with
    | none => (fsPaths, true)
    | some true => remove (removeDirAll fsPaths s) rest
    | some false => remove (removeFile fsPaths s) rest

/-! ## Command tokenization in `run` (build.go:208-220)

`run` formats one command-line string, replaces every match of the
regexp `spaces` (one or more whitespace characters; the RE2 class `\s`
used by Go regexp is exactly space, tab, newline, form feed and
carriage return — it does not include vertical tab) by a single space,
splits the result on single spaces (`strings.Split`, which keeps empty
fields), and executes `s[0]` with arguments `s[1:]`. -/

def isWhitespaceChar (c : Char) : Bool :=
  c = ' ' || c = '\t' || c = '\n' || c = '\x0c' || c = '\r'

/-- Replacement of every maximal whitespace run by one space, on the
character list: the Boolean tracks whether the previous character was
part of a whitespace run already replaced. -/
def collapseWS (inRun : Bool) : List Char → List Char
  | [] => []
  | c :: cs =>
    if isWhitespaceChar c then
      if inRun then collapseWS true cs else ' ' :: collapseWS true cs
    else c :: collapseWS false cs

/-- `spaces.ReplaceAllString(command, " ")` of build.go:209/220. -/
def spacesReplaceAll (command : String) : String :=
  String.mk (collapseWS false command.data)

/-- `strings.Split(s, " ")`: split on every single space, keeping empty
fields; the result always has at least one element. -/
def splitOnSpace : List Char → List (List Char)
  | [] => [[]]
  | c :: cs =>
    if c = ' ' then [] :: splitOnSpace cs
    else
      match splitOnSpace cs with
      | t :: ts => (c :: t) :: ts
      | [] => [[c]]

/-- The token list `s` of build.go:209. -/
def runTokens (command : String) : List String :=
  (splitOnSpace (spacesReplaceAll command).data).map String.mk

/-- `run` of build.go:208-218 with the child process's exit abstracted to
a Boolean: a failed run is returned as an error wrapping the command. -/
def run (processOk : Bool) (command : String) : Except String Unit :=
  if processOk then .ok () else .error ("error when running command " ++ command)

/-! ## Artifact locations of a fully successful run (build.go:13-19, 80-126)

All path constants of build.go:13-19 are relative; the operating system
resolves them against the process working directory `cwd`.  Only the
`-J` argument of the resource-generation step (build.go:85) is prefixed
with the configured output directory.  Each external step is assumed, on
success, to create its documented output (a representative generated
source file and class file stand for the generated contents).  The final
`remove` (build.go:126) receives the relative temp paths, again resolved
against `cwd`. -/

def outputDirForGeneratedSourceFiles : String := "generated_java_sources"
def outputDirForBytecode : String := "java_virtual_machine_bytecode"
def outputDexFilepath : String := "classes.dex"
def filepathOfAPK : String := "app.apk"
def filepathOfUnalignedAPK : String := "app.apk.unaligned"

/-- The file-system entries created by a fully successful run before
cleanup, in creation order, with their directory flags. -/
def artifactsCreated (cwd outDir : String) : List (String × Bool) :=
  [(pathJoin cwd outputDirForGeneratedSourceFiles, true),
   (pathJoin cwd outputDirForBytecode, true),
   (pathJoin outDir outputDirForGeneratedSourceFiles, true),
   (pathJoin (pathJoin outDir outputDirForGeneratedSourceFiles) "R.java", false),
   (pathJoin (pathJoin cwd outputDirForBytecode) "Main.class", false),
   (pathJoin cwd outputDexFilepath, false),
   (pathJoin cwd filepathOfUnalignedAPK, false),
   (pathJoin cwd filepathOfAPK, false)]

/-- The file-system state after the final `remove` call of build.go:126,
which removes `classes.dex`, `app.apk.unaligned` and the two temp
directories, all as paths relative to the working directory. -/
def artifactsAfterSuccess (cwd outDir : String) : List (String × Bool) × Bool :=
  remove (artifactsCreated cwd outDir)
    [pathJoin cwd outputDexFilepath, pathJoin cwd filepathOfUnalignedAPK,
     pathJoin cwd outputDirForGeneratedSourceFiles, pathJoin cwd outputDirForBytecode]

/-! ## Shared helper lemmas -/

instance {ε α : Type} [DecidableEq ε] [DecidableEq α] : DecidableEq (Except ε α) := fun x y =>
  match x, y with
  | .error a, .error b => decidable_of_iff (a = b) (by simp)
  | .error _, .ok _ => isFalse (by simp)
  | .ok _, .error _ => isFalse (by simp)
  | .ok a, .ok b => decidable_of_iff (a = b) (by simp)

theorem lookup_mem {α β : Type} [BEq α] [LawfulBEq α] {l : List (α × β)} {k : α} {v : β}
    (h : l.lookup k = some v) : (k, v) ∈ l := by
  induction l with
  | nil => simp [List.lookup] at h
  | cons a t ih =>
    rw [List.lookup] at h
    rcases hk : (k == a.1) with _ | _
    · rw [hk] at h
      exact List.mem_cons_of_mem _ (ih h)
    · rw [hk] at h
      have hk' : k = a.1 := eq_of_beq hk
      cases h
      subst hk'
      exact List.mem_cons_self _ _

theorem getLast_le_of_sorted (ff : List String) (h : ff ≠ [])
    (hs : List.Sorted (fun a b : String => a.data ≤ b.data) ff) :
    ∀ x ∈ ff, x.data ≤ (ff.getLast h).data := by
  induction ff with
  | nil => cases h rfl
  | cons a t ih =>
    rcases List.sorted_cons.mp hs with ⟨ha, ht⟩
    intro x hx
    cases t with
    | nil =>
      have hx' : x = a := by simpa using hx
      subst hx'
      simp [List.getLast_singleton]
    | cons b t' =>
      rw [List.getLast_cons (by simp)]
      cases hx with
      | head =>
        exact le_trans (ha b (by simp)) (ih (by simp) ht b (by simp))
      | tail _ hx' =>
        exact ih (by simp) ht x hx'

theorem sorted_getLast_greatest (ff : List String) (h : ff ≠ [])
    (hs : List.Sorted (fun a b : String => a.data ≤ b.data) ff) :
    IsLexGreatest (ff.getLast h) ff :=
  ⟨List.getLast_mem h, getLast_le_of_sorted ff h hs⟩

/-! ## Claim C1: version selection is the literal last listing element -/

/-- File system refuting C1: the raw `Readdir` order of `build-tools` is
`29.0.2` before `28.0.3` (file systems do not promise sorted listings). -/
def fsC1 : SdkFs :=
  ⟨[("/sdk/build-tools", ["29.0.2", "28.0.3"]),
    ("/sdk/platforms", ["android-29", "android-28"])],
   fun _ => true⟩

/-- Claim C1 is false as stated: on a listing whose raw order is not
sorted, resolution still takes the literal last element (`28.0.3`,
respectively `android-28`), which is not the lexicographically greatest
name of the listing (`29.0.2`, respectively `android-29`). -/
theorem selection_not_lex_greatest :
    initBuildTools fsC1 "/sdk" =
      .ok ("/sdk/build-tools/28.0.3", "/sdk/build-tools/28.0.3/aapt",
        "/sdk/build-tools/28.0.3/dx") ∧
    initPlatforms fsC1 "/sdk" =
      .ok ("/sdk/platforms/android-28", "/sdk/platforms/android-28/android.jar") ∧
    ¬ IsLexGreatest "28.0.3" ["29.0.2", "28.0.3"] ∧
    ¬ IsLexGreatest "android-28" ["android-29", "android-28"] ∧
    IsLexGreatest "29.0.2" ["29.0.2", "28.0.3"] ∧
    IsLexGreatest "android-29" ["android-29", "android-28"] := by
  decide

/-- Amended C1: for every SDK root whose build-tools (respectively
platforms) listing is non-empty, resolution selects exactly the literal
last element of the listing as returned by the directory read; only when
that listing happens to be sorted in byte-wise lexicographic order is the
selected entry also the lexicographically greatest one. -/
theorem selection_is_literal_last (fs : SdkFs) (sdk : String) (ff gg : List String)
    (hb : fs.dirs.lookup (sdk ++ "/build-tools") = some ff) (hbne : ff ≠ [])
    (hp : fs.dirs.lookup (sdk ++ "/platforms") = some gg) (hpne : gg ≠ []) :
    initBuildTools fs sdk =
      .ok (sdk ++ "/build-tools" ++ "/" ++ ff.getLast hbne,
        sdk ++ "/build-tools" ++ "/" ++ ff.getLast hbne ++ "/aapt",
        sdk ++ "/build-tools" ++ "/" ++ ff.getLast hbne ++ "/dx") ∧
    initPlatforms fs sdk =
      .ok (sdk ++ "/platforms" ++ "/" ++ gg.getLast hpne,
        sdk ++ "/platforms" ++ "/" ++ gg.getLast hpne ++ "/android.jar") ∧
    (List.Sorted (fun a b : String => a.data ≤ b.data) ff →
      IsLexGreatest (ff.getLast hbne) ff) ∧
    (List.Sorted (fun a b : String => a.data ≤ b.data) gg →
      IsLexGreatest (gg.getLast hpne) gg) := by
  have hbl : ¬ (ff.length < 1) := by
    have := List.length_pos.mpr hbne
    omega
  have hpl : ¬ (gg.length < 1) := by
    have := List.length_pos.mpr hpne
    omega
  refine ⟨?_, ?_, sorted_getLast_greatest ff hbne, sorted_getLast_greatest gg hpne⟩
  · simp [initBuildTools, hb, hbl]
  · simp [initPlatforms, hp, hpl]

/-- File system for the C1 witness, with listings in sorted raw order. -/
def fsC1w : SdkFs :=
  ⟨[("/sdk/build-tools", ["28.0.3", "29.0.2"]),
    ("/sdk/platforms", ["android-28", "android-29"])],
   fun _ => true⟩

theorem selection_is_literal_last_witness :
    fsC1w.dirs.lookup ("/sdk" ++ "/build-tools") = some ["28.0.3", "29.0.2"] ∧
    initBuildTools fsC1w "/sdk" =
      .ok ("/sdk" ++ "/build-tools" ++ "/" ++ (["28.0.3", "29.0.2"].getLast (by decide)),
        "/sdk" ++ "/build-tools" ++ "/" ++ (["28.0.3", "29.0.2"].getLast (by decide)) ++ "/aapt",
        "/sdk" ++ "/build-tools" ++ "/" ++ (["28.0.3", "29.0.2"].getLast (by decide)) ++ "/dx") ∧
    IsLexGreatest (["28.0.3", "29.0.2"].getLast (by decide)) ["28.0.3", "29.0.2"] :=
  have h := selection_is_literal_last fsC1w "/sdk" ["28.0.3", "29.0.2"]
    ["android-28", "android-29"] (by decide) (by decide) (by decide) (by decide)
  ⟨by decide, h.1, h.2.2.1 (by decide)⟩

/-! ## Claim C2: a failed bytecode translation stops the pipeline -/

/-- Claim C2: when the steps before bytecode translation succeed and the
translation process exits non-zero, exactly the steps up to and including
translation have executed, packaging, bytecode injection, signing,
alignment and cleanup never run, the process exits with status 1, and the
error message printed names the translation step. -/
theorem translate_failure_stops_pipeline (env : RunEnv)
    (h1 : env.makeDirsOk = true) (h2 : env.generateOk = true)
    (h3 : env.compileOk = true) (h4 : env.translateOk = false) :
    mainRun env =
      ⟨[.makeDirs, .generateResources, .compileJava, .translateBytecode], 1, [msgTranslate]⟩ ∧
    Step.packageApk ∉ (mainRun env).executed ∧
    Step.injectBytecode ∉ (mainRun env).executed ∧
    Step.signApk ∉ (mainRun env).executed ∧
    Step.alignApk ∉ (mainRun env).executed ∧
    Step.cleanup ∉ (mainRun env).executed ∧
    (mainRun env).exitCode = 1 ∧
    msgTranslate ∈ (mainRun env).stderr := by
  have hm : mainRun env =
      ⟨[.makeDirs, .generateResources, .compileJava, .translateBytecode], 1, [msgTranslate]⟩ := by
    simp [mainRun, h1, h2, h3, h4]
  rw [hm]
  refine ⟨rfl, ?_, ?_, ?_, ?_, ?_, rfl, ?_⟩ <;> decide

def envC2 : RunEnv := ⟨true, true, true, false, true, true, true, true, true⟩

theorem translate_failure_stops_pipeline_witness :
    envC2.translateOk = false ∧
    mainRun envC2 =
      ⟨[.makeDirs, .generateResources, .compileJava, .translateBytecode], 1, [msgTranslate]⟩ ∧
    Step.packageApk ∉ (mainRun envC2).executed :=
  have h := translate_failure_stops_pipeline envC2 rfl rfl rfl rfl
  ⟨rfl, h.1, h.2.1⟩

/-! ## Claim C3: a cleanup error after a successful build -/

def envC3 : RunEnv := ⟨true, true, true, true, true, true, true, true, false⟩

/-- Claim C3 is false on the code: in a run where every pipeline step
succeeds and cleanup fails, nothing is printed to the error stream and
the process exits with status 0 — `main` discards the value returned by
`remove` (build.go:126), so the cleanup error is not surfaced. -/
theorem cleanup_error_not_surfaced :
    envC3.cleanupOk = false ∧
    (mainRun envC3).exitCode = 0 ∧
    (mainRun envC3).stderr = [] := by
  decide

/-- Amended C3: when every pipeline step succeeds and the final cleanup
sub-step fails, the cleanup error is silently dropped: cleanup does run,
but the process still exits with status 0 and prints nothing, because the
error value returned by `remove` is discarded. -/
theorem cleanup_error_ignored (env : RunEnv)
    (h1 : env.makeDirsOk = true) (h2 : env.generateOk = true)
    (h3 : env.compileOk = true) (h4 : env.translateOk = true)
    (h5 : env.packageOk = true) (h6 : env.injectOk = true)
    (h7 : env.signOk = true) (h8 : env.alignOk = true)
    (h9 : env.cleanupOk = false) :
    (mainRun env).exitCode = 0 ∧
    (mainRun env).stderr = [] ∧
    Step.cleanup ∈ (mainRun env).executed := by
  have hm : mainRun env =
      ⟨[.makeDirs, .generateResources, .compileJava, .translateBytecode, .packageApk,
        .injectBytecode, .signApk, .alignApk, .cleanup], 0, []⟩ := by
    simp [mainRun, h1, h2, h3, h4, h5, h6, h7, h8]
  rw [hm]
  refine ⟨rfl, rfl, ?_⟩
  decide

theorem cleanup_error_ignored_witness :
    envC3.cleanupOk = false ∧
    (mainRun envC3).exitCode = 0 ∧
    (mainRun envC3).stderr = [] ∧
    Step.cleanup ∈ (mainRun envC3).executed :=
  have h := cleanup_error_ignored envC3 rfl rfl rfl rfl rfl rfl rfl rfl rfl
  ⟨rfl, h.1, h.2.1, h.2.2⟩

/-! ## Claim C5: which toolchain paths are known to exist -/

theorem initBuildTools_ok_inv (fs : SdkFs) (sdk bt aapt dx : String)
    (h : initBuildTools fs sdk = .ok (bt, aapt, dx)) :
    ∃ ff, ∃ hne : ff ≠ [], fs.dirs.lookup (sdk ++ "/build-tools") = some ff ∧
      bt = sdk ++ "/build-tools" ++ "/" ++ ff.getLast hne ∧
      aapt = bt ++ "/aapt" ∧ dx = bt ++ "/dx" := by
  rcases hlk : fs.dirs.lookup (sdk ++ "/build-tools") with _ | ff
  · simp [initBuildTools, hlk] at h
  · by_cases hff : ff.length < 1
    · simp [initBuildTools, hlk, hff] at h
    · have hne : ff ≠ [] := by
        intro he
        rw [he] at hff
        simp at hff
      refine ⟨ff, hne, rfl, ?_⟩
      simp [initBuildTools, hlk, hff] at h
      obtain ⟨h1, h2, h3⟩ := h
      subst h1
      exact ⟨rfl, h2.symm, h3.symm⟩

theorem initPlatforms_ok_inv (fs : SdkFs) (sdk pl lib : String)
    (h : initPlatforms fs sdk = .ok (pl, lib)) :
    ∃ gg, ∃ hne : gg ≠ [], fs.dirs.lookup (sdk ++ "/platforms") = some gg ∧
      pl = sdk ++ "/platforms" ++ "/" ++ gg.getLast hne ∧
      lib = pl ++ "/android.jar" := by
  rcases hlk : fs.dirs.lookup (sdk ++ "/platforms") with _ | gg
  · simp [initPlatforms, hlk] at h
  · by_cases hgg : gg.length < 1
    · simp [initPlatforms, hlk, hgg] at h
    · have hne : gg ≠ [] := by
        intro he
        rw [he] at hgg
        simp at hgg
      refine ⟨gg, hne, rfl, ?_⟩
      simp [initPlatforms, hlk, hgg] at h
      obtain ⟨h1, h2⟩ := h
      subst h1
      exact ⟨rfl, h2.symm⟩

theorem coherent_entry_exists (fs : SdkFs) (d : String) (ns : List String)
    (hc : fs.coherent = true) (hm : fs.dirs.lookup d = some ns) :
    fs.existsAt d = true ∧ ∀ n ∈ ns, fs.existsAt (d ++ "/" ++ n) = true := by
  have hmem : (d, ns) ∈ fs.dirs := lookup_mem hm
  have hall := List.all_eq_true.mp hc _ hmem
  rcases Bool.and_eq_true_iff.mp hall with ⟨h1, h2⟩
  exact ⟨h1, fun n hn => List.all_eq_true.mp h2 n hn⟩

/-- File system refuting C5: the SDK contains a `build-tools` version
directory and a platform directory, but neither an `aapt` or `dx` binary
nor an `android.jar` exists anywhere. -/
def fsC5 : SdkFs :=
  ⟨[("/sdk/build-tools", ["28.0.3"]), ("/sdk/platforms", ["android-28"])],
   fun p =>
     ["/sdk", "/sdk/build-tools", "/sdk/build-tools/28.0.3", "/sdk/platforms",
      "/sdk/platforms/android-28"].contains p⟩

/-- Claim C5 is false as stated: resolution succeeds although the
resource-compiler path, the bytecode-translator path and the base-library
archive path name entries that do not exist — those paths are derived by
pure string concatenation (`filepath.Abs` checks nothing). -/
theorem toolchain_paths_may_not_exist :
    fsC5.coherent = true ∧
    newToolchain fsC5 "/sdk" =
      .ok ⟨"/sdk", "/sdk/build-tools/28.0.3", "/sdk/platforms/android-28",
        "/sdk/platforms/android-28/android.jar", "/sdk/build-tools/28.0.3/aapt",
        "/sdk/build-tools/28.0.3/dx"⟩ ∧
    fsC5.existsAt "/sdk/build-tools/28.0.3/aapt" = false ∧
    fsC5.existsAt "/sdk/build-tools/28.0.3/dx" = false ∧
    fsC5.existsAt "/sdk/platforms/android-28/android.jar" = false := by
  decide

/-- Amended C5: for a successfully constructed toolchain on a coherent
file system, exactly the listing-derived path fields are guaranteed to
refer to entries that existed at resolution time: the selected
build-tools version directory and the selected platform directory (and
the listed `build-tools` and `platforms` directories themselves).  The
binary and archive paths (`aaptBin`, `dxBin`, `androidLib`) are never
checked and may name missing entries. -/
theorem toolchain_listing_paths_exist (fs : SdkFs) (sdk : String) (t : toolchain)
    (hc : fs.coherent = true) (h : newToolchain fs sdk = .ok t) :
    fs.existsAt (sdk ++ "/build-tools") = true ∧
    fs.existsAt (sdk ++ "/platforms") = true ∧
    fs.existsAt t.buildTools = true ∧
    fs.existsAt t.platform = true := by
  rcases hbt : initBuildTools fs sdk with e | ⟨bt, aapt, dx⟩
  · simp [newToolchain, hbt] at h
  · rcases hpl : initPlatforms fs sdk with e | ⟨pl, lib⟩
    · simp [newToolchain, hbt, hpl] at h
    · have ht : t = ⟨sdk, bt, pl, lib, aapt, dx⟩ := by
        simp [newToolchain, hbt, hpl] at h
        exact h.symm
      subst ht
      rcases initBuildTools_ok_inv fs sdk bt aapt dx hbt with ⟨ff, hne, hlk, hbt1, _⟩
      rcases initPlatforms_ok_inv fs sdk pl lib hpl with ⟨gg, hgne, hglk, hpl1, _⟩
      rcases coherent_entry_exists fs _ _ hc hlk with ⟨hd1, he1⟩
      rcases coherent_entry_exists fs _ _ hc hglk with ⟨hd2, he2⟩
      refine ⟨hd1, hd2, ?_, ?_⟩
      · rw [hbt1]
        exact he1 _ (List.getLast_mem hne)
      · rw [hpl1]
        exact he2 _ (List.getLast_mem hgne)

theorem toolchain_listing_paths_exist_witness :
    fsC5.coherent = true ∧
    fsC5.existsAt "/sdk/build-tools/28.0.3" = true ∧
    fsC5.existsAt "/sdk/platforms/android-28" = true :=
  have h := toolchain_listing_paths_exist fsC5 "/sdk"
    ⟨"/sdk", "/sdk/build-tools/28.0.3", "/sdk/platforms/android-28",
      "/sdk/platforms/android-28/android.jar", "/sdk/build-tools/28.0.3/aapt",
      "/sdk/build-tools/28.0.3/dx"⟩ (by decide) (by decide)
  ⟨by decide, h.2.2.1, h.2.2.2⟩

/-! ## Claim C7: an empty build-tools listing fails before platforms -/

/-- Claim C7: with an empty `build-tools` listing, resolution fails with
the empty-build-tools error, and the outcome is the same whatever the
rest of the file system — in particular whatever the `platforms`
directory holds — so platform resolution is never consulted.  (The Go
message interpolates `len(ff)`, i.e. `0`, where its format string meant
to name the path; the structured error carries that count.) -/
theorem empty_buildTools_fails_before_platforms (fs : SdkFs) (sdk : String)
    (h : fs.dirs.lookup (sdk ++ "/build-tools") = some []) :
    newToolchain fs sdk = .error (.emptyBuildTools 0) ∧
    initBuildTools fs sdk = .error (.emptyBuildTools 0) ∧
    (∀ fs' : SdkFs, fs'.dirs.lookup (sdk ++ "/build-tools") = some [] →
      newToolchain fs' sdk = newToolchain fs sdk) := by
  have hbt : initBuildTools fs sdk = .error (.emptyBuildTools 0) := by
    simp [initBuildTools, h]
  refine ⟨?_, hbt, ?_⟩
  · simp [newToolchain, hbt]
  · intro fs' h'
    have hbt' : initBuildTools fs' sdk = .error (.emptyBuildTools 0) := by
      simp [initBuildTools, h']
    simp [newToolchain, hbt, hbt']

/-- File system for the C7 witness: `build-tools` is empty while
`platforms` has a perfectly valid entry. -/
def fsC7 : SdkFs :=
  ⟨[("/sdk/build-tools", []), ("/sdk/platforms", ["android-28"])], fun _ => true⟩

theorem empty_buildTools_fails_before_platforms_witness :
    fsC7.dirs.lookup ("/sdk" ++ "/build-tools") = some [] ∧
    newToolchain fsC7 "/sdk" = .error (.emptyBuildTools 0) :=
  have h := empty_buildTools_fails_before_platforms fsC7 "/sdk" (by decide)
  ⟨by decide, h.1⟩

/-! ## Claim C8: cleanup stats first, fails fast, removes dirs recursively -/

/-- Claim C8: `remove` stats each path first; a stat failure returns an
error immediately, leaving the state unchanged and never attempting the
remaining paths (the result does not depend on them); a directory is
removed together with everything below it; a plain file is removed on
its own. -/
theorem remove_fail_fast_spec (fsPaths : List (String × Bool)) (p : String)
    (rest : List String) :
    (fsPaths.lookup p = none →
      remove fsPaths (p :: rest) = (fsPaths, true) ∧
      ∀ rest', remove fsPaths (p :: rest') = remove fsPaths (p :: rest)) ∧
    (fsPaths.lookup p = some true →
      remove fsPaths (p :: rest) = remove (removeDirAll fsPaths p) rest ∧
      ∀ q, q ∈ removeDirAll fsPaths p ↔
        q ∈ fsPaths ∧ ¬(q.1 = p ∨ (p ++ "/").data.isPrefixOf q.1.data = true)) ∧
    (fsPaths.lookup p = some false →
      remove fsPaths (p :: rest) = remove (removeFile fsPaths p) rest ∧
      ∀ q, q ∈ removeFile fsPaths p ↔ q ∈ fsPaths ∧ q.1 ≠ p) := by
  refine ⟨?_, ?_, ?_⟩
  · intro h
    constructor
    · simp [remove, h]
    · intro rest'
      simp [remove, h]
  · intro h
    constructor
    · simp [remove, h]
    · intro q
      simp [removeDirAll, List.mem_filter, Bool.eq_false_iff, List.isPrefixOf_iff_prefix]
  · intro h
    constructor
    · simp [remove, h]
    · intro q
      simp [removeFile, List.mem_filter]

/-- A small file system for the C8 witness: a directory with a file
below it, and an unrelated plain file. -/
def fsC8 : List (String × Bool) := [("/t", true), ("/t/a.txt", false), ("/f", false)]

theorem remove_fail_fast_spec_witness :
    remove fsC8 ("/missing" :: ["/f"]) = (fsC8, true) ∧
    remove fsC8 ("/t" :: []) = remove (removeDirAll fsC8 "/t") [] ∧
    (("/t/a.txt", false) ∈ removeDirAll fsC8 "/t" ↔
      ("/t/a.txt", false) ∈ fsC8 ∧
      ¬(("/t/a.txt", false).1 = "/t" ∨
        ("/t" ++ "/").data.isPrefixOf ("/t/a.txt", false).1.data = true)) ∧
    remove fsC8 ("/f" :: []) = remove (removeFile fsC8 "/f") [] :=
  have h1 := (remove_fail_fast_spec fsC8 "/missing" ["/f"]).1 (by decide)
  have h2 := (remove_fail_fast_spec fsC8 "/t" []).2.1 (by decide)
  have h3 := (remove_fail_fast_spec fsC8 "/f" []).2.2 (by decide)
  ⟨h1.1, h2.1, h2.2 _, h3.1⟩

/-! ## Claim C4: artifact locations after a fully successful run -/

/-- Claim C4 is refuted by the code when the configured output directory
differs from the working directory (failing input: working directory
`/r/proj`, output directory `/r/out`): every artifact except the
generated-source directory passed to the resource compiler is created
relative to the working directory, the final APK is at
`/r/proj/app.apk`, no artifact is produced under `/r/out` except the
generated-source directory — which survives the cleanup, since cleanup
removes the relative path resolved against the working directory.  With
output directory equal to the working directory (the default), the
claimed final state does hold. -/
theorem artifacts_not_under_output_dir :
    ((artifactsAfterSuccess "/r/proj" "/r/out").2 = false ∧
      (artifactsAfterSuccess "/r/proj" "/r/out").1.lookup "/r/proj/app.apk" = some false ∧
      (artifactsAfterSuccess "/r/proj" "/r/out").1.lookup "/r/out/app.apk" = none ∧
      (artifactsAfterSuccess "/r/proj" "/r/out").1.lookup "/r/out/generated_java_sources" =
        some true ∧
      (artifactsAfterSuccess "/r/proj" "/r/out").1.lookup
        "/r/out/generated_java_sources/R.java" = some false ∧
      (artifactsAfterSuccess "/r/proj" "/r/out").1.lookup "/r/proj/generated_java_sources" =
        none ∧
      (artifactsAfterSuccess "/r/proj" "/r/out").1.lookup
        "/r/proj/java_virtual_machine_bytecode" = none ∧
      (artifactsAfterSuccess "/r/proj" "/r/out").1.lookup "/r/proj/classes.dex" = none ∧
      (artifactsAfterSuccess "/r/proj" "/r/out").1.lookup "/r/proj/app.apk.unaligned" = none) ∧
    ((artifactsAfterSuccess "/r/proj" "/r/proj").2 = false ∧
      (artifactsAfterSuccess "/r/proj" "/r/proj").1.lookup "/r/proj/app.apk" = some false ∧
      (artifactsAfterSuccess "/r/proj" "/r/proj").1.lookup "/r/proj/generated_java_sources" =
        none ∧
      (artifactsAfterSuccess "/r/proj" "/r/proj").1.lookup
        "/r/proj/generated_java_sources/R.java" = none ∧
      (artifactsAfterSuccess "/r/proj" "/r/proj").1.lookup
        "/r/proj/java_virtual_machine_bytecode" = none ∧
      (artifactsAfterSuccess "/r/proj" "/r/proj").1.lookup "/r/proj/classes.dex" = none ∧
      (artifactsAfterSuccess "/r/proj" "/r/proj").1.lookup "/r/proj/app.apk.unaligned" =
        none) := by
  decide

/-! ## Claim C9: command formatting, whitespace collapse, splitting -/

/-- Joining character-list fields with single spaces; the left inverse of
`splitOnSpace`. -/
def joinSpaceL : List (List Char) → List Char
  | [] => []
  | [t] => t
  | t :: t' :: ts => t ++ ' ' :: joinSpaceL (t' :: ts)

/-- Joining string fields with single spaces. -/
def joinWithSpace : List String → String
  | [] => ""
  | [t] => t
  | t :: t' :: ts => t ++ " " ++ joinWithSpace (t' :: ts)

theorem splitOnSpace_ne_nil (l : List Char) : splitOnSpace l ≠ [] := by
  induction l with
  | nil => simp [splitOnSpace]
  | cons c cs ih =>
    rw [splitOnSpace]
    by_cases hc : c = ' '
    · simp [hc]
    · rcases h : splitOnSpace cs with _ | ⟨t, ts⟩
      · exact absurd h ih
      · simp [hc, h]

theorem joinSpaceL_splitOnSpace (l : List Char) : joinSpaceL (splitOnSpace l) = l := by
  induction l with
  | nil => rfl
  | cons c cs ih =>
    by_cases hc : c = ' '
    · subst hc
      rcases h : splitOnSpace cs with _ | ⟨t, ts⟩
      · exact absurd h (splitOnSpace_ne_nil cs)
      · rw [h] at ih
        simp [splitOnSpace, h, joinSpaceL]
        exact ih
    · rcases h : splitOnSpace cs with _ | ⟨t, ts⟩
      · exact absurd h (splitOnSpace_ne_nil cs)
      · rw [h] at ih
        cases ts with
        | nil =>
          simp [joinSpaceL] at ih
          simp [splitOnSpace, hc, h, joinSpaceL, ih]
        | cons u us =>
          simp [joinSpaceL] at ih ⊢
          simp [splitOnSpace, hc, h, joinSpaceL, ih]

theorem collapseWS_ws_is_space (l : List Char) :
    ∀ (b : Bool) (c : Char), c ∈ collapseWS b l → isWhitespaceChar c = true → c = ' ' := by
  induction l with
  | nil =>
    intro b c hc
    simp [collapseWS] at hc
  | cons d ds ih =>
    intro b c hc hw
    rw [collapseWS] at hc
    by_cases hd : isWhitespaceChar d
    · rw [if_pos hd] at hc
      cases b with
      | false =>
        simp only [if_neg (by simp : ¬ (false = true))] at hc
        rcases List.mem_cons.mp hc with h | h
        · exact h
        · exact ih true c h hw
      | true =>
        simp only [if_pos rfl] at hc
        exact ih true c hc hw
    · rw [if_neg hd] at hc
      rcases List.mem_cons.mp hc with h | h
      · subst h
        exact absurd hw hd
      · exact ih false c h hw

theorem splitOnSpace_token_chars (l : List Char) :
    ∀ tok ∈ splitOnSpace l, ∀ c ∈ tok, c ∈ l ∧ c ≠ ' ' := by
  induction l with
  | nil =>
    intro tok htok c hc
    simp [splitOnSpace] at htok
    subst htok
    simp at hc
  | cons d ds ih =>
    intro tok htok c hc
    rw [splitOnSpace] at htok
    by_cases hd : d = ' '
    · rw [if_pos hd] at htok
      rcases List.mem_cons.mp htok with h | h
      · subst h
        simp at hc
      · rcases ih tok h c hc with ⟨h1, h2⟩
        exact ⟨List.mem_cons_of_mem _ h1, h2⟩
    · rw [if_neg hd] at htok
      rcases h : splitOnSpace ds with _ | ⟨t, ts⟩
      · exact absurd h (splitOnSpace_ne_nil ds)
      · rw [h] at htok
        rcases List.mem_cons.mp htok with h' | h'
        · subst h'
          rcases List.mem_cons.mp hc with h'' | h''
          · subst h''
            exact ⟨List.mem_cons_self _ _, hd⟩
          · rcases ih t (h ▸ List.mem_cons_self _ _) c h'' with ⟨h1, h2⟩
            exact ⟨List.mem_cons_of_mem _ h1, h2⟩
        · rcases ih tok (h ▸ List.mem_cons_of_mem _ h') c hc with ⟨h1, h2⟩
          exact ⟨List.mem_cons_of_mem _ h1, h2⟩

theorem mk_append (a b : List Char) : String.mk a ++ String.mk b = String.mk (a ++ b) := rfl

theorem joinWithSpace_map_mk (ls : List (List Char)) :
    joinWithSpace (ls.map String.mk) = String.mk (joinSpaceL ls) := by
  induction ls with
  | nil => rfl
  | cons t ts ih =>
    cases ts with
    | nil => rfl
    | cons t' ts' =>
      simp only [List.map, joinWithSpace, joinSpaceL]
      rw [show (" " : String) = String.mk [' '] from rfl] at *
      rw [List.map] at ih
      rw [ih, mk_append, mk_append]
      simp

/-- Claim C9: the command of each step is obtained from one formatted
string by replacing every maximal whitespace run with one space and
splitting on single spaces; the first token is the program, the rest the
arguments (`s[0]`, `s[1:]`); the token list is never empty, joining it
back with single spaces recovers the collapsed command, no token contains
any whitespace; a non-zero exit makes `run` return an error, and the
pipeline exit status is 0 exactly when every external step succeeded. -/
theorem run_tokenization_spec (command : String) :
    (runTokens command).length ≥ 1 ∧
    joinWithSpace (runTokens command) = spacesReplaceAll command ∧
    (∀ tok ∈ runTokens command, ∀ c ∈ tok.data, isWhitespaceChar c = false) ∧
    (∀ ok : Bool, run ok command = .ok () ↔ ok = true) ∧
    (∀ env : RunEnv, env.makeDirsOk = true →
      ((mainRun env).exitCode = 0 ↔
        (env.generateOk && env.compileOk && env.translateOk && env.packageOk &&
          env.injectOk && env.signOk && env.alignOk) = true)) := by
  refine ⟨?_, ?_, ?_, ?_, ?_⟩
  · have h := splitOnSpace_ne_nil (spacesReplaceAll command).data
    have h2 := List.length_pos.mpr h
    simp [runTokens]
    omega
  · rw [runTokens, joinWithSpace_map_mk, joinSpaceL_splitOnSpace]
  · intro tok htok c hc
    rw [runTokens] at htok
    rcases List.mem_map.mp htok with ⟨t, ht, rfl⟩
    rcases splitOnSpace_token_chars _ t ht c hc with ⟨h1, h2⟩
    rcases hcw : isWhitespaceChar c with _ | _
    · rfl
    · exact absurd (collapseWS_ws_is_space command.data false c h1 hcw) h2
  · intro ok
    cases ok <;> simp [run]
  · intro env h1
    obtain ⟨b1, b2, b3, b4, b5, b6, b7, b8, b9⟩ := env
    simp only at h1
    subst h1
    revert b2 b3 b4 b5 b6 b7 b8
    cases b9 <;> decide

/-- A representative pipeline command with a doubled space and a tab, as
could arise from an empty format argument. -/
def cmdC9 : String := "/sdk/build-tools/28.0.3/aapt  add app.apk.unaligned" ++ "\t" ++ "classes.dex"

def envC9 : RunEnv := ⟨true, true, true, true, true, true, true, true, true⟩

theorem run_tokenization_spec_witness :
    runTokens cmdC9 = ["/sdk/build-tools/28.0.3/aapt", "add", "app.apk.unaligned",
      "classes.dex"] ∧
    joinWithSpace (runTokens cmdC9) = spacesReplaceAll cmdC9 ∧
    envC9.makeDirsOk = true ∧
    ((mainRun envC9).exitCode = 0 ↔
      (envC9.generateOk && envC9.compileOk && envC9.translateOk && envC9.packageOk &&
        envC9.injectOk && envC9.signOk && envC9.alignOk) = true) :=
  have h := run_tokenization_spec cmdC9
  ⟨by decide, h.2.1, rfl, h.2.2.2.2 envC9 rfl⟩

/-! ## Claim C6: file discovery collects exactly the `.java` files -/

theorem walkTree_err (path name : String) : walkTree path name .errEnt = ([], true) := by
  rw [walkTree.eq_def]

theorem walkTree_file (path name : String) :
    walkTree path name .file = (if javaFilenameMatches name then [path] else [], false) := by
  rw [walkTree.eq_def]

theorem walkTree_dir (path name : String) (entries : List (String × FSTree)) :
    walkTree path name (.dir entries) = walkEntries path (sortEntries entries) := by
  rw [walkTree.eq_def]

theorem walkEntries_nil (path : String) : walkEntries path [] = ([], false) := by
  rw [walkEntries.eq_def]

theorem walkEntries_cons (path n : String) (t : FSTree) (rest : List (String × FSTree)) :
    walkEntries path ((n, t) :: rest) =
      match walkTree (pathJoin path n) n t with
      | (ps, true) => (ps, true)
      | (ps, false) =>
        match walkEntries path rest with
        | (ps', e') => (ps ++ ps', e') := by
  rw [walkEntries.eq_def]

theorem errorFreeT_err : errorFreeT .errEnt = false := by rw [errorFreeT.eq_def]

theorem errorFreeT_file : errorFreeT .file = true := by rw [errorFreeT.eq_def]

theorem errorFreeT_dir (entries : List (String × FSTree)) :
    errorFreeT (.dir entries) = errorFreeL entries := by rw [errorFreeT.eq_def]

theorem errorFreeL_nil : errorFreeL [] = true := by rw [errorFreeL.eq_def]

theorem errorFreeL_cons (n : String) (t : FSTree) (rest : List (String × FSTree)) :
    errorFreeL ((n, t) :: rest) = (errorFreeT t && errorFreeL rest) := by
  rw [errorFreeL.eq_def]

theorem javaPathsOf_err (path name : String) : javaPathsOf path name .errEnt = [] := by
  rw [javaPathsOf.eq_def]

theorem javaPathsOf_file (path name : String) :
    javaPathsOf path name .file = if javaFilenameMatches name then [path] else [] := by
  rw [javaPathsOf.eq_def]

theorem javaPathsOf_dir (path name : String) (entries : List (String × FSTree)) :
    javaPathsOf path name (.dir entries) = javaPathsOfList path entries := by
  rw [javaPathsOf.eq_def]

theorem javaPathsOfList_nil (path : String) : javaPathsOfList path [] = [] := by
  rw [javaPathsOfList.eq_def]

theorem javaPathsOfList_cons (path n : String) (t : FSTree) (rest : List (String × FSTree)) :
    javaPathsOfList path ((n, t) :: rest) =
      javaPathsOf (pathJoin path n) n t ++ javaPathsOfList path rest := by
  rw [javaPathsOfList.eq_def]

theorem errorFreeL_eq_all (l : List (String × FSTree)) :
    errorFreeL l = l.all fun p => errorFreeT p.2 := by
  induction l with
  | nil => simp [errorFreeL_nil]
  | cons p rest ih =>
    rcases p with ⟨n, t⟩
    rw [errorFreeL_cons, List.all_cons, ih]

theorem errorFreeL_perm {l₁ l₂ : List (String × FSTree)} (h : l₁.Perm l₂) :
    errorFreeL l₁ = errorFreeL l₂ := by
  rw [errorFreeL_eq_all, errorFreeL_eq_all]
  have hiff : (l₁.all fun p => errorFreeT p.2) = true ↔
      (l₂.all fun p => errorFreeT p.2) = true := by
    simp only [List.all_eq_true]
    constructor
    · intro ha x hx
      exact ha x (h.mem_iff.mpr hx)
    · intro ha x hx
      exact ha x (h.mem_iff.mp hx)
  cases h1 : l₁.all fun p => errorFreeT p.2
  · cases h2 : l₂.all fun p => errorFreeT p.2
    · rfl
    · exact absurd (hiff.mpr h2) (by simp [h1])
  · exact (hiff.mp h1).symm

theorem javaPathsOfList_eq_flatMap (path : String) (l : List (String × FSTree)) :
    javaPathsOfList path l = l.flatMap fun p => javaPathsOf (pathJoin path p.1) p.1 p.2 := by
  induction l with
  | nil => simp [javaPathsOfList_nil]
  | cons p rest ih =>
    rcases p with ⟨n, t⟩
    rw [javaPathsOfList_cons, List.flatMap_cons, ih]

theorem javaPathsOfList_perm (path : String) {l₁ l₂ : List (String × FSTree)}
    (h : l₁.Perm l₂) : (javaPathsOfList path l₁).Perm (javaPathsOfList path l₂) := by
  rw [javaPathsOfList_eq_flatMap, javaPathsOfList_eq_flatMap]
  exact h.flatMap_right _

theorem walkTree_spec :
    ∀ (path name : String) (t : FSTree),
      (walkTree path name t).2 = !errorFreeT t ∧
      (errorFreeT t = true → (walkTree path name t).1.Perm (javaPathsOf path name t)) := by
  refine walkTree.induct
    (fun path name t =>
      (walkTree path name t).2 = !errorFreeT t ∧
      (errorFreeT t = true → (walkTree path name t).1.Perm (javaPathsOf path name t)))
    (fun path l =>
      (walkEntries path l).2 = !errorFreeL l ∧
      (errorFreeL l = true → (walkEntries path l).1.Perm (javaPathsOfList path l)))
    ?_ ?_ ?_ ?_ ?_ ?_
  · intro path name
    simp [walkTree_err, errorFreeT_err]
  · intro path name
    simp only [walkTree_file, errorFreeT_file, javaPathsOf_file]
    exact ⟨rfl, fun _ => List.Perm.refl _⟩
  · intro path name entries ih
    constructor
    · rw [walkTree_dir, ih.1, errorFreeT_dir, errorFreeL_perm (sortEntries_perm entries)]
    · intro he
      rw [errorFreeT_dir] at he
      have he' : errorFreeL (sortEntries entries) = true := by
        rw [errorFreeL_perm (sortEntries_perm entries)]
        exact he
      rw [walkTree_dir, javaPathsOf_dir]
      exact (ih.2 he').trans (javaPathsOfList_perm path (sortEntries_perm entries))
  · intro path
    simp [walkEntries_nil, errorFreeL_nil, javaPathsOfList_nil]
  · intro path n t rest ps heq ih1
    have h1 : errorFreeT t = false := by
      have h := ih1.1
      rw [heq] at h
      cases hE : errorFreeT t
      · rfl
      · rw [hE] at h
        simp at h
    constructor
    · rw [walkEntries_cons, heq]
      simp [errorFreeL_cons, h1]
    · intro he
      rw [errorFreeL_cons, h1] at he
      simp at he
  · intro path n t rest ps heq ps' e' heq2 ih1 ih2
    have h1 : errorFreeT t = true := by
      have h := ih1.1
      rw [heq] at h
      cases hE : errorFreeT t
      · rw [hE] at h
        simp at h
      · rfl
    have h2 : e' = !errorFreeL rest := by
      have h := ih2.1
      rw [heq2] at h
      exact h
    constructor
    · rw [walkEntries_cons, heq, heq2]
      simp [errorFreeL_cons, h1, h2]
    · intro he
      rw [errorFreeL_cons, h1] at he
      simp only [Bool.true_and] at he
      have hp1 := ih1.2 h1
      rw [heq] at hp1
      have hp2 := ih2.2 he
      rw [heq2] at hp2
      rw [walkEntries_cons, heq, heq2, javaPathsOfList_cons]
      exact hp1.append hp2

/-- Claim C6: for every directory tree, file discovery succeeds exactly
when no traversal error occurs (a traversal error is propagated as
fatal), and on an error-free tree the collected paths are exactly — as a
multiset — the non-directory entries whose name ends in `.java`;
directories are traversed but never collected (`javaPathsOf` collects
file nodes only). -/
theorem findJavaSourceFiles_spec (rootDir : String) (t : FSTree) :
    ((findJavaSourceFiles rootDir t).2 = !errorFreeT t) ∧
    (errorFreeT t = true →
      (findJavaSourceFiles rootDir t).1.Perm (javaPathsOf rootDir (baseName rootDir) t)) :=
  walkTree_spec rootDir (baseName rootDir) t

/-- The example tree of the claim: `A.java`, `b.txt`, `sub/C.java`, with
the raw listing deliberately not in sorted order. -/
def exC6 : FSTree :=
  .dir [("b.txt", .file), ("sub", .dir [("C.java", .file)]), ("A.java", .file)]

theorem findJavaSourceFiles_spec_witness :
    errorFreeT exC6 = true ∧
    (findJavaSourceFiles "root" exC6).2 = !errorFreeT exC6 ∧
    (findJavaSourceFiles "root" exC6).1.Perm
      (javaPathsOf "root" (baseName "root") exC6) ∧
    (findJavaSourceFiles "root" exC6).1 = ["root/A.java", "root/sub/C.java"] := by
  have hEF : errorFreeT exC6 = true := by
    simp [exC6, errorFreeT_dir, errorFreeL_cons, errorFreeL_nil, errorFreeT_file]
  have h := findJavaSourceFiles_spec "root" exC6
  have hA : walkTree (pathJoin "root" "A.java") "A.java" FSTree.file =
      (["root/A.java"], false) := by
    rw [walkTree_file]
    rfl
  have hb : walkTree (pathJoin "root" "b.txt") "b.txt" FSTree.file = ([], false) := by
    rw [walkTree_file]
    rfl
  have hC : walkTree (pathJoin (pathJoin "root" "sub") "C.java") "C.java" FSTree.file =
      (["root/sub/C.java"], false) := by
    rw [walkTree_file]
    rfl
  have hsubE : walkEntries (pathJoin "root" "sub") [("C.java", FSTree.file)] =
      (["root/sub/C.java"], false) := by
    rw [walkEntries_cons, hC, walkEntries_nil]
    rfl
  have hsub : walkTree (pathJoin "root" "sub") "sub" (FSTree.dir [("C.java", FSTree.file)]) =
      (["root/sub/C.java"], false) := by
    rw [walkTree_dir,
      show sortEntries [("C.java", FSTree.file)] = [("C.java", FSTree.file)] from rfl]
    exact hsubE
  have houter : walkEntries "root"
      [("A.java", FSTree.file), ("b.txt", FSTree.file),
        ("sub", FSTree.dir [("C.java", FSTree.file)])] =
      (["root/A.java", "root/sub/C.java"], false) := by
    rw [walkEntries_cons, hA, walkEntries_cons, hb, walkEntries_cons, hsub, walkEntries_nil]
    rfl
  have heval : findJavaSourceFiles "root" exC6 = (["root/A.java", "root/sub/C.java"], false) := by
    show walkTree "root" (baseName "root") exC6 = _
    rw [show baseName "root" = "root" from rfl,
      show exC6 = FSTree.dir [("b.txt", FSTree.file), ("sub", FSTree.dir [("C.java", FSTree.file)]),
        ("A.java", FSTree.file)] from rfl,
      walkTree_dir,
      show sortEntries [("b.txt", FSTree.file), ("sub", FSTree.dir [("C.java", FSTree.file)]),
        ("A.java", FSTree.file)] =
        [("A.java", FSTree.file), ("b.txt", FSTree.file),
          ("sub", FSTree.dir [("C.java", FSTree.file)])] from rfl]
    exact houter
  exact ⟨hEF, h.1, h.2 hEF, by rw [heval]⟩

/-! ## Claim C10: file discovery does not depend on raw listing order

Two `FSTree` values describe the same physical directory tree when they
differ only in the raw order in which each directory listing was
reported: `SameFs` relates a directory to any permutation of a
pointwise-related listing.  Real directories have distinct entry names
(`NodupNames`). -/

inductive SameFs : FSTree → FSTree → Prop where
  | file : SameFs .file .file
  | errEnt : SameFs .errEnt .errEnt
  | dir {e₁ e₂ e₃ : List (String × FSTree)}
      (hlen : e₁.length = e₂.length)
      (hname : ∀ (i : Nat) (h₁ : i < e₁.length) (h₂ : i < e₂.length),
        (e₁.get ⟨i, h₁⟩).1 = (e₂.get ⟨i, h₂⟩).1)
      (hsub : ∀ (i : Nat) (h₁ : i < e₁.length) (h₂ : i < e₂.length),
        SameFs (e₁.get ⟨i, h₁⟩).2 (e₂.get ⟨i, h₂⟩).2)
      (hperm : e₂.Perm e₃) : SameFs (.dir e₁) (.dir e₃)

inductive NodupNames : FSTree → Prop where
  | file : NodupNames .file
  | errEnt : NodupNames .errEnt
  | dir {e : List (String × FSTree)} (hn : (e.map Prod.fst).Nodup)
      (hs : ∀ p ∈ e, NodupNames p.2) : NodupNames (.dir e)

theorem data_inj {s t : String} (h : s.data = t.data) : s = t := by
  cases s
  cases t
  simp only at h
  rw [h]

theorem sorted_sortEntries (l : List (String × FSTree)) :
    List.Sorted entryLE (sortEntries l) :=
  List.sorted_insertionSort entryLE l

/-- Two listings of the same directory that are both sorted by name and
have distinct names are equal as lists of entries. -/
theorem sorted_perm_nodup_keys_eq :
    ∀ (l₁ l₂ : List (String × FSTree)), l₁.Perm l₂ →
      List.Sorted entryLE l₁ → List.Sorted entryLE l₂ →
      (l₁.map Prod.fst).Nodup → l₁ = l₂ := by
  intro l₁
  induction l₁ with
  | nil =>
    intro l₂ h _ _ _
    exact (List.Perm.eq_nil h.symm).symm
  | cons a t₁ ih =>
    intro l₂ h hs₁ hs₂ hnd
    cases l₂ with
    | nil => exact absurd (List.Perm.eq_nil h) (by simp)
    | cons b t₂ =>
      rcases List.sorted_cons.mp hs₁ with ⟨ha, ht₁⟩
      rcases List.sorted_cons.mp hs₂ with ⟨hb, ht₂⟩
      rw [List.map_cons] at hnd
      rcases List.nodup_cons.mp hnd with ⟨hna, hnt⟩
      have hab : a = b := by
        by_contra hne
        have ha2 : a ∈ b :: t₂ := h.mem_iff.mp (List.mem_cons_self _ _)
        have hb1 : b ∈ a :: t₁ := h.mem_iff.mpr (List.mem_cons_self _ _)
        have ha2' : a ∈ t₂ := by
          rcases List.mem_cons.mp ha2 with h' | h'
          · exact absurd h' hne
          · exact h'
        have hb1' : b ∈ t₁ := by
          rcases List.mem_cons.mp hb1 with h' | h'
          · exact absurd h'.symm hne
          · exact h'
        have hkey : a.1 = b.1 := data_inj (le_antisymm (ha b hb1') (hb a ha2'))
        have hmem : b.1 ∈ t₁.map Prod.fst := List.mem_map.mpr ⟨b, hb1', rfl⟩
        rw [← hkey] at hmem
        exact hna hmem
      subst hab
      rw [ih t₂ h.cons_inv ht₁ ht₂ hnt]

/-- The walk treats two subtrees identically. -/
def walkEq (t₁ t₂ : FSTree) : Prop :=
  ∀ path name, walkTree path name t₁ = walkTree path name t₂

/-- Entry lists related pointwise: equal names, walk-equivalent subtrees. -/
def EntRel (l₁ l₂ : List (String × FSTree)) : Prop :=
  List.Forall₂ (fun a b => a.1 = b.1 ∧ walkEq a.2 b.2) l₁ l₂

theorem entRel_orderedInsert {a b : String × FSTree}
    (hab : a.1 = b.1 ∧ walkEq a.2 b.2) :
    ∀ {l₁ l₂}, EntRel l₁ l₂ →
      EntRel (List.orderedInsert entryLE a l₁) (List.orderedInsert entryLE b l₂) := by
  intro l₁ l₂ h
  induction h with
  | nil => exact List.Forall₂.cons hab List.Forall₂.nil
  | @cons x y xs ys hxy hrest ih =>
    simp only [List.orderedInsert]
    by_cases hc : entryLE a x
    · have hc' : entryLE b y := by
        unfold entryLE at hc ⊢
        rw [← hab.1, ← hxy.1]
        exact hc
      rw [if_pos hc, if_pos hc']
      exact List.Forall₂.cons hab (List.Forall₂.cons hxy hrest)
    · have hc' : ¬ entryLE b y := by
        unfold entryLE at hc ⊢
        rw [← hab.1, ← hxy.1]
        exact hc
      rw [if_neg hc, if_neg hc']
      exact List.Forall₂.cons hxy ih

theorem entRel_sortEntries {l₁ l₂ : List (String × FSTree)} (h : EntRel l₁ l₂) :
    EntRel (sortEntries l₁) (sortEntries l₂) := by
  induction h with
  | nil => exact List.Forall₂.nil
  | @cons x y xs ys hxy hrest ih =>
    simp only [sortEntries, List.insertionSort] at ih ⊢
    exact entRel_orderedInsert hxy ih

theorem walkEntries_congr {l₁ l₂ : List (String × FSTree)} (h : EntRel l₁ l₂)
    (path : String) : walkEntries path l₁ = walkEntries path l₂ := by
  induction h with
  | nil => rfl
  | @cons x y xs ys hxy hrest ih =>
    obtain ⟨n₁, t₁⟩ := x
    obtain ⟨n₂, t₂⟩ := y
    obtain ⟨hn, hw⟩ := hxy
    simp only at hn
    subst hn
    have hwt : walkTree (pathJoin path n₁) n₁ t₁ = walkTree (pathJoin path n₁) n₁ t₂ := hw _ _
    rw [walkEntries_cons, walkEntries_cons, hwt, ih]

theorem walkTree_sameFs {t₁ t₂ : FSTree} (h : SameFs t₁ t₂) :
    NodupNames t₁ → walkEq t₁ t₂ := by
  induction h with
  | file => exact fun _ _ _ => rfl
  | errEnt => exact fun _ _ _ => rfl
  | @dir e₁ e₂ e₃ hlen hname hsub hperm ih =>
    intro hw path name
    cases hw with
    | dir hn hs =>
      rw [walkTree_dir, walkTree_dir]
      have hmapeq : e₁.map Prod.fst = e₂.map Prod.fst := by
        apply List.ext_get (by simp [hlen])
        intro i h₁ h₂
        simp only [List.get_map]
        exact hname i (by simpa using h₁) (by simpa using h₂)
      have hrel : EntRel e₁ e₂ := by
        refine List.forall₂_iff_get.mpr ⟨hlen, fun i h₁ h₂ => ⟨hname i h₁ h₂, ?_⟩⟩
        exact ih i h₁ h₂ (hs _ (List.get_mem e₁ _ _))
      have hstep1 : walkEntries path (sortEntries e₁) = walkEntries path (sortEntries e₂) :=
        walkEntries_congr (entRel_sortEntries hrel) path
      have hn₂ : (e₂.map Prod.fst).Nodup := hmapeq ▸ hn
      have hpermSort : (sortEntries e₂).Perm (sortEntries e₃) :=
        (sortEntries_perm e₂).trans (hperm.trans (sortEntries_perm e₃).symm)
      have hnodupSort : ((sortEntries e₂).map Prod.fst).Nodup :=
        (((sortEntries_perm e₂).map Prod.fst).nodup_iff).mpr hn₂
      have hstep2 : sortEntries e₂ = sortEntries e₃ :=
        sorted_perm_nodup_keys_eq _ _ hpermSort (sorted_sortEntries e₂)
          (sorted_sortEntries e₃) hnodupSort
      rw [hstep1, hstep2]

/-- Claim C10: over the same physical tree — two views that differ only
in the raw listing order of each directory, with distinct entry names —
file discovery returns the same list of paths in the same order: the
visiting order is the sorted (lexical) one, not the raw listing order. -/
theorem findJava_order_independent (root : String) {t₁ t₂ : FSTree}
    (h : SameFs t₁ t₂) (hw : NodupNames t₁) :
    findJavaSourceFiles root t₁ = findJavaSourceFiles root t₂ :=
  walkTree_sameFs h hw root (baseName root)

/-- Two views of the same directory tree: the raw listing order differs
at the top level and inside the subdirectory `a`. -/
def exC10a : FSTree :=
  .dir [("b.java", .file), ("a", .dir [("d.java", .file), ("c.java", .file)])]

def exC10b : FSTree :=
  .dir [("a", .dir [("c.java", .file), ("d.java", .file)]), ("b.java", .file)]

theorem sameFs_exC10 : SameFs exC10a exC10b := by
  unfold exC10a exC10b
  have inner : SameFs (.dir [("d.java", FSTree.file), ("c.java", FSTree.file)])
      (.dir [("c.java", FSTree.file), ("d.java", FSTree.file)]) := by
    refine @SameFs.dir [("d.java", .file), ("c.java", .file)]
      [("d.java", .file), ("c.java", .file)] [("c.java", .file), ("d.java", .file)]
      rfl ?_ ?_ (List.Perm.swap _ _ _)
    · intro i h₁ h₂
      have hi : i < 2 := by simpa using h₁
      interval_cases i <;> rfl
    · intro i h₁ h₂
      have hi : i < 2 := by simpa using h₁
      interval_cases i <;> exact SameFs.file
  refine @SameFs.dir
    [("b.java", .file), ("a", .dir [("d.java", .file), ("c.java", .file)])]
    [("b.java", .file), ("a", .dir [("c.java", .file), ("d.java", .file)])]
    [("a", .dir [("c.java", .file), ("d.java", .file)]), ("b.java", .file)]
    rfl ?_ ?_ (List.Perm.swap _ _ _)
  · intro i h₁ h₂
    have hi : i < 2 := by simpa using h₁
    interval_cases i <;> rfl
  · intro i h₁ h₂
    have hi : i < 2 := by simpa using h₁
    interval_cases i
    · exact SameFs.file
    · exact inner

theorem nodup_exC10a : NodupNames exC10a := by
  unfold exC10a
  refine NodupNames.dir (by decide) ?_
  intro p hp
  simp only [List.mem_cons, List.not_mem_nil, or_false] at hp
  rcases hp with rfl | rfl
  · exact NodupNames.file
  · refine NodupNames.dir (by decide) ?_
    intro q hq
    simp only [List.mem_cons, List.not_mem_nil, or_false] at hq
    rcases hq with rfl | rfl <;> exact NodupNames.file

theorem findJava_order_independent_witness :
    NodupNames exC10a ∧
    SameFs exC10a exC10b ∧
    findJavaSourceFiles "r" exC10a = findJavaSourceFiles "r" exC10b ∧
    findJavaSourceFiles "r" exC10a = (["r/a/c.java", "r/a/d.java", "r/b.java"], false) := by
  refine ⟨nodup_exC10a, sameFs_exC10,
    findJava_order_independent "r" sameFs_exC10 nodup_exC10a, ?_⟩
  have hbj : walkTree (pathJoin "r" "b.java") "b.java" FSTree.file = (["r/b.java"], false) := by
    rw [walkTree_file]
    rfl
  have hc : walkTree (pathJoin (pathJoin "r" "a") "c.java") "c.java" FSTree.file =
      (["r/a/c.java"], false) := by
    rw [walkTree_file]
    rfl
  have hd : walkTree (pathJoin (pathJoin "r" "a") "d.java") "d.java" FSTree.file =
      (["r/a/d.java"], false) := by
    rw [walkTree_file]
    rfl
  have hinnerE : walkEntries (pathJoin "r" "a")
      [("c.java", FSTree.file), ("d.java", FSTree.file)] =
      (["r/a/c.java", "r/a/d.java"], false) := by
    rw [walkEntries_cons, hc, walkEntries_cons, hd, walkEntries_nil]
    rfl
  have ha : walkTree (pathJoin "r" "a")
      "a" (FSTree.dir [("d.java", FSTree.file), ("c.java", FSTree.file)]) =
      (["r/a/c.java", "r/a/d.java"], false) := by
    rw [walkTree_dir,
      show sortEntries [("d.java", FSTree.file), ("c.java", FSTree.file)] =
        [("c.java", FSTree.file), ("d.java", FSTree.file)] from rfl]
    exact hinnerE
  have houter : walkEntries "r"
      [("a", FSTree.dir [("d.java", FSTree.file), ("c.java", FSTree.file)]),
        ("b.java", FSTree.file)] =
      (["r/a/c.java", "r/a/d.java", "r/b.java"], false) := by
    rw [walkEntries_cons, ha, walkEntries_cons, hbj, walkEntries_nil]
    rfl
  show walkTree "r" (baseName "r") exC10a = _
  rw [show baseName "r" = "r" from rfl,
    show exC10a = FSTree.dir [("b.java", FSTree.file),
      ("a", FSTree.dir [("d.java", FSTree.file), ("c.java", FSTree.file)])] from rfl,
    walkTree_dir,
    show sortEntries [("b.java", FSTree.file),
      ("a", FSTree.dir [("d.java", FSTree.file), ("c.java", FSTree.file)])] =
      [("a", FSTree.dir [("d.java", FSTree.file), ("c.java", FSTree.file)]),
        ("b.java", FSTree.file)] from rfl]
  exact houter

end Blade
